import Mathlib

/-!
Verification of `janitor.biology.join_fasta` (src/janitor/biology.py).

The source function is:

    seqrecords = {
        x.id: x.seq.__str__() for x in SeqIO.parse(filename, "fasta")
    }
    seq_col = [seqrecords[i] for i in df[id_col]]
    df[column_name] = seq_col
    return df

Shallow embedding choices:
* A FASTA record is an identifier paired with its sequence string; the
  external parser (`SeqIO.parse`) is modelled by the function's input:
  `none` stands for a file-access/parse failure when opening the file
  (raised before any dataset access), `some recs` for a successful parse
  yielding the records in file order.
* A dataset row is an insertion-ordered association list from column name
  to string value (the shape pandas exposes for the operations used here);
  a dataset is the ordered list of its rows.
* Python `dict` construction is `dictInsert`: updating an existing key
  overwrites its value in place, a new key is appended (insertion order).
* In-place mutation of the caller's DataFrame is made explicit by
  returning a pair: the call's result (`Except JoinError Dataset`) and
  the final state of the caller's dataset after the call.
-/

structure FastaRecord where
  id : String
  seq : String
deriving DecidableEq, Repr

abbrev Row := List (String × String)

abbrev Dataset := List Row

/-- Lookup of a key in an association list (Python `d[k]` / row access),
returning the first (hence, for dicts with unique keys, the only) value. -/
def lookupStr (k : String) : List (String × String) → Option String
  | [] => none
  | (k', v) :: rest => if k' = k then some v else lookupStr k rest

/-- Errors `join_fasta` can raise: a file-access/parse failure from
`SeqIO.parse`, a missing `id_col` column (pandas `KeyError` on `df[id_col]`),
or a missing identifier (Python `KeyError` on `seqrecords[i]`). -/
inductive JoinError where
  | fileError
  | columnError (c : String)
  | keyError (k : String)
deriving DecidableEq, Repr

/-- Overwriting the value of key `c` in one key-value pair (identity on
pairs carrying any other key). -/
def updatePair (c v : String) (p : String × String) : String × String :=
  if p.1 = c then (c, v) else p

/-- Python `dict` insertion: an existing key is overwritten in place,
a fresh key is appended at the end (insertion order). -/
def dictInsert (d : List (String × String)) (k v : String) :
    List (String × String) :=
  if d.any (fun p => p.1 = k) then d.map (updatePair k v)
  else d ++ [(k, v)]

/-- `seqrecords = {x.id: x.seq.__str__() for x in SeqIO.parse(filename, "fasta")}`:
the dict comprehension folds the records in file order into a dict, so a
duplicate identifier overwrites the earlier entry (last wins). -/
def seqrecordsOf (recs : List FastaRecord) : List (String × String) :=
  recs.foldl (fun d x => dictInsert d x.id x.seq) []

/-- `df[id_col]`: the column of values in row order; pandas raises a
`KeyError` if the column is absent, modelled per row. -/
def getColumn (df : Dataset) (c : String) : Except JoinError (List String) :=
  match df with
  | [] => .ok []
  | r :: rs =>
    match lookupStr c r with
    | none => .error (.columnError c)
    | some v =>
      match getColumn rs c with
      | .error e => .error e
      | .ok vs => .ok (v :: vs)

/-- `seq_col = [seqrecords[i] for i in df[id_col]]`: the list comprehension
evaluates left to right and raises `KeyError` at the first identifier
missing from the dict; nothing is assigned to the DataFrame yet. -/
def buildSeqCol (table : List (String × String)) :
    List String → Except JoinError (List String)
  | [] => .ok []
  | i :: is =>
    match lookupStr i table with
    | none => .error (.keyError i)
    | some s =>
      match buildSeqCol table is with
      | .error e => .error e
      | .ok ss => .ok (s :: ss)

/-- Assignment of value `v` into column `c` of one row: an existing column
is overwritten in place, a new column is appended after the existing ones. -/
def setInRow (r : Row) (c v : String) : Row :=
  if r.any (fun p => p.1 = c) then r.map (updatePair c v)
  else r ++ [(c, v)]

/-- `df[column_name] = seq_col`: the column of values is written into the
rows pairwise in order (`join_fasta` only reaches this with `vs` exactly as
long as `df`, since `seq_col` has one entry per row of `df`). -/
def setColumn (df : Dataset) (c : String) (vs : List String) : Dataset :=
  List.zipWith (fun r v => setInRow r c v) df vs

/-- The embedding of `join_fasta(df, filename, id_col, column_name)`.
`file` is the outcome of `SeqIO.parse` on `filename` (`none` = the file is
missing/unreadable/unparseable). The result pairs the returned value with
the final state of the caller's `df` (the function mutates `df` in place). -/
def join_fasta (file : Option (List FastaRecord)) (df : Dataset)
    (id_col column_name : String) : Except JoinError Dataset × Dataset :=
  match file with
  | none => (.error .fileError, df)
  | some recs =>
    let seqrecords := seqrecordsOf recs
    match getColumn df id_col with
    | .error e => (.error e, df)
    | .ok ids =>
      match buildSeqCol seqrecords ids with
      | .error e => (.error e, df)
      | .ok seq_col =>
        let df' := setColumn df column_name seq_col
        (.ok df', df')

instance {ε α : Type} [DecidableEq ε] [DecidableEq α] :
    DecidableEq (Except ε α) := fun x y =>
  match x, y with
  | .ok a, .ok b =>
    if h : a = b then .isTrue (by rw [h]) else .isFalse (by simp [h])
  | .error a, .error b =>
    if h : a = b then .isTrue (by rw [h]) else .isFalse (by simp [h])
  | .ok _, .error _ => .isFalse (by simp)
  | .error _, .ok _ => .isFalse (by simp)

/-- The FASTA file of the worked example in the spec: `{A: "ACGT", B: "TTTT"}`. -/
def exampleRecs : List FastaRecord := [⟨"A", "ACGT"⟩, ⟨"B", "TTTT"⟩]

/-- The dataset of the worked example: rows `[{id:"A"},{id:"B"},{id:"A"}]`. -/
def exampleDf : Dataset := [[("id", "A")], [("id", "B")], [("id", "A")]]

example :
    join_fasta (some exampleRecs) exampleDf "id" "seq" =
      (.ok [[("id", "A"), ("seq", "ACGT")], [("id", "B"), ("seq", "TTTT")],
            [("id", "A"), ("seq", "ACGT")]],
       [[("id", "A"), ("seq", "ACGT")], [("id", "B"), ("seq", "TTTT")],
        [("id", "A"), ("seq", "ACGT")]]) := by decide

example :
    join_fasta (some [⟨"A", "ACGT"⟩]) [[("id", "A")], [("id", "Z")]] "id" "seq" =
      (.error (.keyError "Z"), [[("id", "A")], [("id", "Z")]]) := by decide

example :
    join_fasta (some [⟨"A", "ACGT"⟩, ⟨"A", "TTTG"⟩]) [[("id", "A")]] "id" "seq" =
      (.ok [[("id", "A"), ("seq", "TTTG")]], [[("id", "A"), ("seq", "TTTG")]]) := by
  decide

example :
    join_fasta (some [⟨"A", "ACGT"⟩]) [[("id", "A")]] "id" "id" =
      (.ok [[("id", "ACGT")]], [[("id", "ACGT")]]) := by decide

example :
    join_fasta (some [⟨"A", "ACGT"⟩]) [[("id", "ACGT")]] "id" "id" =
      (.error (.keyError "ACGT"), [[("id", "ACGT")]]) := by decide

/-! ### Lookup and assignment lemmas -/

theorem lookupStr_append (k : String) (l₁ l₂ : List (String × String)) :
    lookupStr k (l₁ ++ l₂) = (lookupStr k l₁).or (lookupStr k l₂) := by
  induction l₁ with
  | nil => rfl
  | cons p rest ih =>
    obtain ⟨k', v⟩ := p
    by_cases h : k' = k <;> simp [lookupStr, h, ih, Option.or]

theorem lookupStr_eq_none_iff {k : String} {r : List (String × String)} :
    lookupStr k r = none ↔ r.any (fun p => p.1 = k) = false := by
  induction r with
  | nil => simp [lookupStr]
  | cons p rest ih =>
    obtain ⟨k', v⟩ := p
    by_cases h : k' = k <;> simp [lookupStr, h, ih]

theorem updatePair_apply_eq {c v k w : String} (h : k = c) :
    updatePair c v (k, w) = (c, v) := by
  simp [updatePair, h]

theorem updatePair_apply_ne {c v k w : String} (h : ¬k = c) :
    updatePair c v (k, w) = (k, w) := by
  simp [updatePair, h]

theorem lookupStr_map_update_self {r : Row} {c : String} (v : String)
    (h : r.any (fun p => p.1 = c) = true) :
    lookupStr c (r.map (updatePair c v)) = some v := by
  induction r with
  | nil => simp at h
  | cons p rest ih =>
    obtain ⟨k, w⟩ := p
    by_cases hk : k = c
    · rw [List.map_cons, updatePair_apply_eq hk]
      simp [lookupStr]
    · have h' : rest.any (fun p => p.1 = c) = true := by simpa [hk] using h
      rw [List.map_cons, updatePair_apply_ne hk]
      simp [lookupStr, hk, ih h']

theorem lookupStr_map_update_ne {r : Row} {c k : String} (v : String) (h : k ≠ c) :
    lookupStr k (r.map (updatePair c v)) = lookupStr k r := by
  induction r with
  | nil => rfl
  | cons p rest ih =>
    obtain ⟨k', w⟩ := p
    by_cases hk : k' = c
    · rw [List.map_cons, updatePair_apply_eq hk]
      subst hk
      simp [lookupStr, Ne.symm h, ih]
    · rw [List.map_cons, updatePair_apply_ne hk]
      simp [lookupStr, ih]

theorem setInRow_lookup_self (r : Row) (c v : String) :
    lookupStr c (setInRow r c v) = some v := by
  unfold setInRow
  split
  · exact lookupStr_map_update_self v (by assumption)
  · rename_i h
    have hb : r.any (fun p => p.1 = c) = false := Bool.eq_false_iff.mpr h
    rw [lookupStr_append, lookupStr_eq_none_iff.mpr hb]
    simp [lookupStr, Option.or]

theorem setInRow_lookup_ne (r : Row) {c k : String} (h : k ≠ c) (v : String) :
    lookupStr k (setInRow r c v) = lookupStr k r := by
  unfold setInRow
  split
  · exact lookupStr_map_update_ne v h
  · rw [lookupStr_append]
    cases hl : lookupStr k r <;> simp [lookupStr, Ne.symm h, Option.or]

theorem setInRow_of_lookup_none {r : Row} {c : String}
    (h : lookupStr c r = none) (v : String) :
    setInRow r c v = r ++ [(c, v)] := by
  simp [setInRow, lookupStr_eq_none_iff.mp h]

theorem setInRow_any_self (r : Row) (c v : String) :
    (setInRow r c v).any (fun p => p.1 = c) = true := by
  cases hb : (setInRow r c v).any (fun p => p.1 = c) with
  | true => rfl
  | false =>
    have hnone := lookupStr_eq_none_iff.mpr hb
    rw [setInRow_lookup_self] at hnone
    cases hnone

theorem setInRow_eq_map_of_any {r : Row} {c : String}
    (h : r.any (fun p => p.1 = c) = true) (v : String) :
    setInRow r c v = r.map (updatePair c v) := by
  simp [setInRow, h]

theorem setInRow_mem_key {r : Row} {c v : String} {p : String × String}
    (hp : p ∈ setInRow r c v) (hk : p.1 = c) : p = (c, v) := by
  unfold setInRow at hp
  split at hp
  · rcases List.mem_map.mp hp with ⟨q, hq, hfq⟩
    obtain ⟨qk, qv⟩ := q
    by_cases hqc : qk = c
    · rw [updatePair_apply_eq hqc] at hfq
      exact hfq.symm
    · rw [updatePair_apply_ne hqc] at hfq
      subst hfq
      exact absurd hk hqc
  · rename_i hnot
    rcases List.mem_append.mp hp with h | h
    · exact absurd (List.any_eq_true.mpr ⟨p, h, by simp [hk]⟩) hnot
    · simpa using h

/-! ### Dict lemmas: the sequence table built by the comprehension -/

theorem dictInsert_lookup_self (d : List (String × String)) (k v : String) :
    lookupStr k (dictInsert d k v) = some v := by
  unfold dictInsert
  split
  · exact lookupStr_map_update_self v (by assumption)
  · rename_i h
    have hb : d.any (fun p => p.1 = k) = false := Bool.eq_false_iff.mpr h
    rw [lookupStr_append, lookupStr_eq_none_iff.mpr hb]
    simp [lookupStr, Option.or]

theorem dictInsert_lookup_ne (d : List (String × String)) {k i : String}
    (h : i ≠ k) (v : String) :
    lookupStr i (dictInsert d k v) = lookupStr i d := by
  unfold dictInsert
  split
  · exact lookupStr_map_update_ne v h
  · rw [lookupStr_append]
    cases hl : lookupStr i d <;> simp [lookupStr, Ne.symm h, Option.or]

/-- Lookup through the fold building `seqrecords`, generalised over the
starting dict: the last record in file order with a given identifier wins,
and identifiers absent from the suffix fall through to the accumulated dict. -/
theorem foldl_dictInsert_lookup (recs : List FastaRecord)
    (d : List (String × String)) (i : String) :
    lookupStr i (recs.foldl (fun d x => dictInsert d x.id x.seq) d) =
      match recs.reverse.find? (fun x => x.id = i) with
      | some x => some x.seq
      | none => lookupStr i d := by
  induction recs generalizing d with
  | nil => rfl
  | cons x xs ih =>
    rw [List.foldl_cons, ih, List.reverse_cons, List.find?_append]
    cases hf : xs.reverse.find? (fun r => r.id = i) with
    | some y => rfl
    | none =>
      rw [Option.none_or]
      by_cases hxi : x.id = i
      · rw [List.find?_cons_of_pos _ (by simp [hxi]), ← hxi,
          dictInsert_lookup_self]
      · rw [List.find?_cons_of_neg _ (by simp [hxi]),
          dictInsert_lookup_ne d (fun h => hxi h.symm)]
        rfl

/-- Looking an identifier up in `seqrecords` finds the sequence of the
last record in file order carrying that identifier. -/
theorem seqrecordsOf_lookup (recs : List FastaRecord) (i : String) :
    lookupStr i (seqrecordsOf recs) =
      match recs.reverse.find? (fun x => x.id = i) with
      | some x => some x.seq
      | none => none := by
  rw [seqrecordsOf, foldl_dictInsert_lookup]
  cases recs.reverse.find? (fun x => x.id = i) <;> rfl

theorem setInRow_idem (r : Row) (c v : String) :
    setInRow (setInRow r c v) c v = setInRow r c v := by
  rw [setInRow_eq_map_of_any (setInRow_any_self r c v)]
  conv_rhs => rw [← List.map_id (setInRow r c v)]
  apply List.map_congr_left
  intro p hp
  by_cases hk : p.1 = c
  · rw [setInRow_mem_key hp hk]
    simp [updatePair]
  · simp [updatePair, hk]

/-! ### Column extraction and sequence-column lemmas -/

theorem getColumn_of_forall {df : Dataset} {c : String}
    (h : ∀ r ∈ df, (lookupStr c r).isSome) :
    ∃ vs, getColumn df c = .ok vs ∧
      List.Forall₂ (fun r v => lookupStr c r = some v) df vs := by
  induction df with
  | nil => exact ⟨[], rfl, .nil⟩
  | cons r rs ih =>
    obtain ⟨v, hv⟩ := Option.isSome_iff_exists.mp (h r (by simp))
    obtain ⟨vs, hok, hf⟩ := ih (fun r' hr' => h r' (by simp [hr']))
    refine ⟨v :: vs, ?_, .cons hv hf⟩
    simp [getColumn, hv, hok]

theorem getColumn_ok_forall₂ {df : Dataset} {c : String} {vs : List String}
    (h : getColumn df c = .ok vs) :
    List.Forall₂ (fun r v => lookupStr c r = some v) df vs := by
  induction df generalizing vs with
  | nil =>
    simp only [getColumn] at h
    injection h with h'
    rw [← h']
    exact .nil
  | cons r rs ih =>
    simp only [getColumn] at h
    cases hl : lookupStr c r with
    | none => rw [hl] at h; cases h
    | some v =>
      rw [hl] at h
      cases hg : getColumn rs c with
      | error e => rw [hg] at h; cases h
      | ok vs' =>
        rw [hg] at h
        injection h with h'
        rw [← h']
        exact .cons hl (ih hg)

theorem buildSeqCol_of_forall {t : List (String × String)} {ids : List String}
    (h : ∀ i ∈ ids, (lookupStr i t).isSome) :
    ∃ ss, buildSeqCol t ids = .ok ss ∧
      List.Forall₂ (fun i s => lookupStr i t = some s) ids ss := by
  induction ids with
  | nil => exact ⟨[], rfl, .nil⟩
  | cons i is ih =>
    obtain ⟨s, hs⟩ := Option.isSome_iff_exists.mp (h i (by simp))
    obtain ⟨ss, hok, hf⟩ := ih (fun i' hi' => h i' (by simp [hi']))
    refine ⟨s :: ss, ?_, .cons hs hf⟩
    simp [buildSeqCol, hs, hok]

theorem buildSeqCol_ok_forall₂ {t : List (String × String)} {ids ss : List String}
    (h : buildSeqCol t ids = .ok ss) :
    List.Forall₂ (fun i s => lookupStr i t = some s) ids ss := by
  induction ids generalizing ss with
  | nil =>
    simp only [buildSeqCol] at h
    injection h with h'
    rw [← h']
    exact .nil
  | cons i is ih =>
    simp only [buildSeqCol] at h
    cases hl : lookupStr i t with
    | none => rw [hl] at h; cases h
    | some s =>
      rw [hl] at h
      cases hb : buildSeqCol t is with
      | error e => rw [hb] at h; cases h
      | ok ss' =>
        rw [hb] at h
        injection h with h'
        rw [← h']
        exact .cons hl (ih hb)

theorem buildSeqCol_error_of_exists {t : List (String × String)}
    {ids : List String} (h : ∃ i ∈ ids, lookupStr i t = none) :
    ∃ k, buildSeqCol t ids = .error (.keyError k) ∧
      k ∈ ids ∧ lookupStr k t = none := by
  induction ids with
  | nil => simp at h
  | cons i is ih =>
    cases hl : lookupStr i t with
    | none => exact ⟨i, by simp [buildSeqCol, hl], by simp, hl⟩
    | some s =>
      have h' : ∃ i' ∈ is, lookupStr i' t = none := by
        rcases h with ⟨j, hj, hjn⟩
        rcases List.mem_cons.mp hj with rfl | hj'
        · rw [hl] at hjn; cases hjn
        · exact ⟨j, hj', hjn⟩
      obtain ⟨k, hk, hkm, hkn⟩ := ih h'
      refine ⟨k, ?_, by simp [hkm], hkn⟩
      simp [buildSeqCol, hl, hk]

theorem buildSeqCol_error_inv {t : List (String × String)} {ids : List String} :
    ∀ {e : JoinError}, buildSeqCol t ids = .error e →
      ∃ k, e = .keyError k ∧ k ∈ ids ∧ lookupStr k t = none := by
  induction ids with
  | nil =>
    intro e h
    simp only [buildSeqCol] at h
    cases h
  | cons i is ih =>
    intro e h
    simp only [buildSeqCol] at h
    cases hl : lookupStr i t with
    | none =>
      rw [hl] at h
      injection h with h'
      exact ⟨i, h'.symm, by simp, hl⟩
    | some s =>
      rw [hl] at h
      cases hb : buildSeqCol t is with
      | error e' =>
        rw [hb] at h
        injection h with h'
        obtain ⟨k, hke, hkm, hkn⟩ := ih hb
        exact ⟨k, by rw [← h']; exact hke, by simp [hkm], hkn⟩
      | ok ss => rw [hb] at h; cases h

/-! ### Column assignment lemmas -/

theorem setColumn_forall₂ {df : Dataset} {vs : List String}
    {P : Row → String → Prop} (h : List.Forall₂ P df vs) (c : String) :
    List.Forall₂ (fun r r' => ∃ v, P r v ∧ r' = setInRow r c v) df
      (setColumn df c vs) := by
  induction h with
  | nil => exact .nil
  | cons hp _ ih => exact .cons ⟨_, hp, rfl⟩ ih

theorem setColumn_idem (df : Dataset) (c : String) (vs : List String) :
    setColumn (setColumn df c vs) c vs = setColumn df c vs := by
  induction df generalizing vs with
  | nil => rfl
  | cons r rs ih =>
    cases vs with
    | nil => rfl
    | cons v vs' =>
      show setInRow (setInRow r c v) c v :: setColumn (setColumn rs c vs') c vs' =
        setInRow r c v :: setColumn rs c vs'
      rw [setInRow_idem, ih]

theorem getColumn_setColumn_ne {df : Dataset} {vs : List String}
    {c idc : String} (hne : idc ≠ c) (hlen : vs.length = df.length) :
    getColumn (setColumn df c vs) idc = getColumn df idc := by
  induction df generalizing vs with
  | nil =>
    cases vs with
    | nil => rfl
    | cons v vs' => simp at hlen
  | cons r rs ih =>
    cases vs with
    | nil => simp at hlen
    | cons v vs' =>
      have hlen' : vs'.length = rs.length := by simpa using hlen
      show getColumn (setInRow r c v :: setColumn rs c vs') idc = _
      simp only [getColumn]
      rw [setInRow_lookup_ne r hne v, ih hlen']

/-! ### Forall₂ composition -/

theorem forall₂_exists_trans {α β γ : Type} {P : α → β → Prop}
    {Q : β → γ → Prop} {l₁ : List α} {l₂ : List β}
    (h₁ : List.Forall₂ P l₁ l₂) :
    ∀ {l₃ : List γ}, List.Forall₂ Q l₂ l₃ →
      List.Forall₂ (fun a c => ∃ b, P a b ∧ Q b c) l₁ l₃ := by
  induction h₁ with
  | nil =>
    intro l₃ h₂
    cases h₂
    exact .nil
  | cons hp _ ih =>
    intro l₃ h₂
    cases h₂ with
    | cons hq hrest => exact .cons ⟨_, hp, hq⟩ (ih hrest)

/-! ### Inversion lemmas for join_fasta -/

theorem join_fasta_ok_inv {file : Option (List FastaRecord)} {df : Dataset}
    {idc nc : String} {d s : Dataset}
    (h : join_fasta file df idc nc = (.ok d, s)) :
    ∃ recs ids sc, file = some recs ∧ getColumn df idc = .ok ids ∧
      buildSeqCol (seqrecordsOf recs) ids = .ok sc ∧
      d = setColumn df nc sc ∧ s = d := by
  cases file with
  | none => simp [join_fasta] at h
  | some recs =>
    simp only [join_fasta] at h
    split at h
    · injection h with h1 h2
      cases h1
    · split at h
      · injection h with h1 h2
        cases h1
      · rename_i xo ids hg xi sc hb
        injection h with h1 h2
        injection h1 with h1
        refine ⟨recs, ids, sc, rfl, hg, hb, h1.symm, ?_⟩
        rw [← h2]
        exact h1

theorem join_fasta_error_inv {file : Option (List FastaRecord)} {df : Dataset}
    {idc nc : String} {e : JoinError} {s : Dataset}
    (h : join_fasta file df idc nc = (.error e, s)) : s = df := by
  cases file with
  | none =>
    simp only [join_fasta] at h
    injection h with h1 h2
    exact h2.symm
  | some recs =>
    simp only [join_fasta] at h
    split at h
    · injection h with h1 h2
      exact h2.symm
    · split at h
      · injection h with h1 h2
        exact h2.symm
      · injection h with h1 h2
        cases h1

theorem forall₂_mem_right {α β : Type} {P : α → β → Prop} {l₁ : List α}
    {l₂ : List β} (h : List.Forall₂ P l₁ l₂) {b : β} (hb : b ∈ l₂) :
    ∃ a ∈ l₁, P a b := by
  induction h with
  | nil => cases hb
  | cons hp _ ih =>
    rcases List.mem_cons.mp hb with rfl | hb'
    · exact ⟨_, by simp, hp⟩
    · obtain ⟨a, ha, hpa⟩ := ih hb'
      exact ⟨a, by simp [ha], hpa⟩

theorem forall₂_mem_left {α β : Type} {P : α → β → Prop} {l₁ : List α}
    {l₂ : List β} (h : List.Forall₂ P l₁ l₂) {a : α} (ha : a ∈ l₁) :
    ∃ b ∈ l₂, P a b := by
  induction h with
  | nil => cases ha
  | cons hp _ ih =>
    rcases List.mem_cons.mp ha with rfl | ha'
    · exact ⟨_, by simp, hp⟩
    · obtain ⟨b, hb, hpb⟩ := ih ha'
      exact ⟨b, by simp [hb], hpb⟩

/-- A dataset row whose identifier misses the table forces the list
comprehension to raise `KeyError` and `join_fasta` to return with the
caller's dataset untouched. -/
theorem join_fasta_keyError_of_unmatched
    {recs : List FastaRecord} {df : Dataset} {idc : String} (nc : String)
    (hid : ∀ r ∈ df, (lookupStr idc r).isSome)
    (hmiss : ∃ r ∈ df, (lookupStr idc r).bind
      (fun v => lookupStr v (seqrecordsOf recs)) = none) :
    ∃ k, join_fasta (some recs) df idc nc = (.error (.keyError k), df) := by
  obtain ⟨ids, hg, hfg⟩ := getColumn_of_forall hid
  obtain ⟨r, hr, hbind⟩ := hmiss
  obtain ⟨v, hv⟩ := Option.isSome_iff_exists.mp (hid r hr)
  rw [hv] at hbind
  simp only [Option.some_bind] at hbind
  obtain ⟨i, hi, hiv⟩ := forall₂_mem_left hfg hr
  rw [hv] at hiv
  injection hiv with hiv
  obtain ⟨k, hb, _, _⟩ := buildSeqCol_error_of_exists
    ⟨i, hi, by rw [← hiv]; exact hbind⟩
  exact ⟨k, by simp [join_fasta, hg, hb]⟩

/-! ### Claim theorems -/

/-- C1: for every dataset in which every `id_col` value has a matching
identifier in the FASTA file (and `column_name` is a genuinely new column),
`join_fasta` succeeds, returns a dataset with the same row count, and each
row equals the original row extended with exactly the one new column
`column_name` holding the sequence mapped to that row's `id_col` value. -/
theorem join_fasta_matched_spec
    (recs : List FastaRecord) (df : Dataset) (idc nc : String)
    (hmatch : ∀ r ∈ df, ((lookupStr idc r).bind
      (fun v => lookupStr v (seqrecordsOf recs))).isSome)
    (hnew : ∀ r ∈ df, lookupStr nc r = none) :
    ∃ df', join_fasta (some recs) df idc nc = (.ok df', df') ∧
      df'.length = df.length ∧
      List.Forall₂ (fun r r' => ∃ v s, lookupStr idc r = some v ∧
        lookupStr v (seqrecordsOf recs) = some s ∧ r' = r ++ [(nc, s)])
        df df' := by
  have hid : ∀ r ∈ df, (lookupStr idc r).isSome := by
    intro r hr
    obtain ⟨s, hbind⟩ := Option.isSome_iff_exists.mp (hmatch r hr)
    obtain ⟨v, hv, _⟩ := Option.bind_eq_some.mp hbind
    simp [hv]
  obtain ⟨ids, hg, hfg⟩ := getColumn_of_forall hid
  have hids : ∀ i ∈ ids, (lookupStr i (seqrecordsOf recs)).isSome := by
    intro i hi
    obtain ⟨r, hr, hv⟩ := forall₂_mem_right hfg hi
    obtain ⟨s, hbind⟩ := Option.isSome_iff_exists.mp (hmatch r hr)
    obtain ⟨v, hv', hs⟩ := Option.bind_eq_some.mp hbind
    rw [hv] at hv'
    injection hv' with hv'
    rw [hv']
    simp [hs]
  obtain ⟨sc, hb, hfb⟩ := buildSeqCol_of_forall hids
  refine ⟨setColumn df nc sc, by simp [join_fasta, hg, hb], ?_, ?_⟩
  · exact (setColumn_forall₂ (forall₂_exists_trans hfg hfb) nc).length_eq.symm
  · have hcomp := (List.forall₂_and_left _ _).mpr ⟨hnew, forall₂_exists_trans hfg hfb⟩
    have hset := setColumn_forall₂ hcomp nc
    refine List.Forall₂.imp ?_ hset
    rintro r r' ⟨s, ⟨hnone, v, hv, hs⟩, rfl⟩
    exact ⟨v, s, hv, hs, by rw [setInRow_of_lookup_none hnone]⟩

/-- Witness for C1 at the spec's worked example: FASTA `{A: ACGT, B: TTTT}`,
rows `[{id:A},{id:B},{id:A}]`, joined on `id` into `seq`, yields exactly the
rows listed in the claim. -/
theorem join_fasta_matched_spec_witness :
    join_fasta (some exampleRecs) exampleDf "id" "seq" =
      (.ok [[("id", "A"), ("seq", "ACGT")], [("id", "B"), ("seq", "TTTT")],
            [("id", "A"), ("seq", "ACGT")]],
       [[("id", "A"), ("seq", "ACGT")], [("id", "B"), ("seq", "TTTT")],
        [("id", "A"), ("seq", "ACGT")]]) ∧
    (∃ df', join_fasta (some exampleRecs) exampleDf "id" "seq" = (.ok df', df') ∧
      df'.length = exampleDf.length ∧
      List.Forall₂ (fun r r' => ∃ v s, lookupStr "id" r = some v ∧
        lookupStr v (seqrecordsOf exampleRecs) = some s ∧ r' = r ++ [("seq", s)])
        exampleDf df') :=
  ⟨by decide,
   join_fasta_matched_spec exampleRecs exampleDf "id" "seq" (by decide) (by decide)⟩

/-- C2 (counterexample): with FASTA `{A: ACGT}` and rows
`[{id:A},{id:Z}]`, the join raises the lookup failure on `Z`, yet no row of
the final dataset — in particular not the matched row `{id:A}` that precedes
the unmatched one — has any `seq` value assigned: the dataset is left
unchanged, not partially mutated. -/
theorem join_fasta_partial_mutation_cex :
    (join_fasta (some [⟨"A", "ACGT"⟩]) [[("id", "A")], [("id", "Z")]]
      "id" "seq").1 = .error (.keyError "Z") ∧
    (join_fasta (some [⟨"A", "ACGT"⟩]) [[("id", "A")], [("id", "Z")]]
      "id" "seq").2 = [[("id", "A")], [("id", "Z")]] ∧
    ∀ r ∈ (join_fasta (some [⟨"A", "ACGT"⟩]) [[("id", "A")], [("id", "Z")]]
      "id" "seq").2, lookupStr "seq" r = none := by decide

/-- C2 (amended): when `join_fasta` raises, no row of the caller's dataset
has the new column assigned (provided it was absent beforehand): the whole
sequence column is computed before any assignment, so there is no partial
mutation and the dataset is left exactly as it was. -/
theorem join_fasta_no_partial_mutation
    (recs : List FastaRecord) (df : Dataset) (idc nc : String)
    (e : JoinError) (s : Dataset)
    (h : join_fasta (some recs) df idc nc = (.error e, s))
    (hnew : ∀ r ∈ df, lookupStr nc r = none) :
    s = df ∧ ∀ r ∈ s, lookupStr nc r = none := by
  have hs := join_fasta_error_inv h
  subst hs
  exact ⟨rfl, hnew⟩

/-- Witness for the amended C2 at the counterexample's input. -/
theorem join_fasta_no_partial_mutation_witness :
    (join_fasta (some [⟨"A", "ACGT"⟩]) [[("id", "A")], [("id", "Z")]]
        "id" "seq").2 = [[("id", "A")], [("id", "Z")]] ∧
    ∀ r ∈ (join_fasta (some [⟨"A", "ACGT"⟩]) [[("id", "A")], [("id", "Z")]]
        "id" "seq").2, lookupStr "seq" r = none :=
  join_fasta_no_partial_mutation [⟨"A", "ACGT"⟩]
    [[("id", "A")], [("id", "Z")]] "id" "seq" (.keyError "Z")
    ((join_fasta (some [⟨"A", "ACGT"⟩]) [[("id", "A")], [("id", "Z")]]
        "id" "seq").2) (by decide) (by decide)

/-- C3: the sequence table built from the FASTA records maps each identifier
to the sequence of the LAST record in file order carrying it; in particular,
for two records both identified `A` with sequences `ACGT` then `TTTG`, a row
with identifier `A` receives `TTTG`. -/
theorem seqrecords_last_wins :
    (∀ (recs : List FastaRecord) (i : String),
      lookupStr i (seqrecordsOf recs) =
        match recs.reverse.find? (fun x => x.id = i) with
        | some x => some x.seq
        | none => none) ∧
    (join_fasta (some [⟨"A", "ACGT"⟩, ⟨"A", "TTTG"⟩]) [[("id", "A")]]
      "id" "seq").1 = .ok [[("id", "A"), ("seq", "TTTG")]] :=
  ⟨seqrecordsOf_lookup, by decide⟩

/-- C4: for a dataset whose rows all carry the `id_col` column,
`join_fasta` raises a `KeyError` (returning no dataset, with the caller's
dataset untouched) exactly when some row's identifier has no matching FASTA
identifier. -/
theorem join_fasta_raises_iff_unmatched
    (recs : List FastaRecord) (df : Dataset) (idc nc : String)
    (hid : ∀ r ∈ df, (lookupStr idc r).isSome) :
    (∃ k, join_fasta (some recs) df idc nc = (.error (.keyError k), df)) ↔
      ∃ r ∈ df, (lookupStr idc r).bind
        (fun v => lookupStr v (seqrecordsOf recs)) = none := by
  obtain ⟨ids, hg, hfg⟩ := getColumn_of_forall hid
  constructor
  · rintro ⟨k, hk⟩
    cases hb : buildSeqCol (seqrecordsOf recs) ids with
    | ok sc => simp [join_fasta, hg, hb] at hk
    | error e =>
      obtain ⟨k', hke, hkm, hkn⟩ := buildSeqCol_error_inv hb
      obtain ⟨r, hr, hv⟩ := forall₂_mem_right hfg hkm
      refine ⟨r, hr, ?_⟩
      rw [hv]
      simpa using hkn
  · rintro ⟨r, hr, hbind⟩
    obtain ⟨v, hv⟩ := Option.isSome_iff_exists.mp (hid r hr)
    exact join_fasta_keyError_of_unmatched nc hid ⟨r, hr, hbind⟩

/-- Witness for C4: row `{id:Z}` is absent from FASTA `{A: ACGT}`, so the
call raises `KeyError` and hands back the dataset unchanged. -/
theorem join_fasta_raises_iff_unmatched_witness :
    ∃ k, join_fasta (some [⟨"A", "ACGT"⟩]) [[("id", "A")], [("id", "Z")]]
      "id" "seq" = (.error (.keyError k), [[("id", "A")], [("id", "Z")]]) :=
  (join_fasta_raises_iff_unmatched [⟨"A", "ACGT"⟩]
    [[("id", "A")], [("id", "Z")]] "id" "seq" (by decide)).mpr (by decide)

/-- C5 (counterexample): idempotence fails when `column_name = id_col`.
With FASTA `{A: ACGT}` and row `{id:A}`, joining on `id` into `id` succeeds
and replaces the identifier with the sequence; re-running the same call on
the returned dataset raises `KeyError "ACGT"` instead of succeeding. -/
theorem join_fasta_idem_cex :
    (join_fasta (some [⟨"A", "ACGT"⟩]) [[("id", "A")]] "id" "id").1 =
      .ok [[("id", "ACGT")]] ∧
    (join_fasta (some [⟨"A", "ACGT"⟩]) [[("id", "ACGT")]] "id" "id").1 =
      .error (.keyError "ACGT") := by decide

/-- C5 (amended): provided `column_name ≠ id_col`, a successful join is
idempotent: re-running `join_fasta` with the same arguments on the returned
dataset succeeds and overwrites the column with identical values, leaving
the dataset equal to the result of the first call. -/
theorem join_fasta_idem_of_ne
    (recs : List FastaRecord) (df df' : Dataset) (idc nc : String)
    (hne : idc ≠ nc)
    (h : join_fasta (some recs) df idc nc = (.ok df', df')) :
    join_fasta (some recs) df' idc nc = (.ok df', df') := by
  obtain ⟨recs', ids, sc, hfile, hg, hb, hd, _⟩ := join_fasta_ok_inv h
  injection hfile with hrecs
  subst hrecs
  have hlen1 : ids.length = df.length := (getColumn_ok_forall₂ hg).length_eq.symm
  have hlen2 : sc.length = ids.length := (buildSeqCol_ok_forall₂ hb).length_eq.symm
  have hg' : getColumn df' idc = .ok ids := by
    rw [hd, getColumn_setColumn_ne hne (by rw [hlen2, hlen1])]
    exact hg
  have hset' : setColumn df' nc sc = df' := by
    rw [hd]
    exact setColumn_idem df nc sc
  simp [join_fasta, hg', hb, hset']

/-- Witness for the amended C5: re-joining the already-joined example row
returns it unchanged. -/
theorem join_fasta_idem_of_ne_witness :
    join_fasta (some [⟨"A", "ACGT"⟩]) [[("id", "A"), ("seq", "ACGT")]]
      "id" "seq" =
      (.ok [[("id", "A"), ("seq", "ACGT")]], [[("id", "A"), ("seq", "ACGT")]]) :=
  join_fasta_idem_of_ne [⟨"A", "ACGT"⟩] [[("id", "A")]]
    [[("id", "A"), ("seq", "ACGT")]] "id" "seq" (by decide) (by decide)

/-- C6: when the file is missing/unreadable, `join_fasta` raises the
file-access failure before touching any row: the result is the error and the
caller's dataset is returned in exactly its original state. -/
theorem join_fasta_file_error_unchanged (df : Dataset) (idc nc : String) :
    join_fasta none df idc nc = (.error .fileError, df) := rfl

/-- C7: on success, the dataset `join_fasta` returns is the caller's dataset
as mutated by the call: the returned value and the final state of the
caller's `df` coincide. -/
theorem join_fasta_returns_mutated_state
    (file : Option (List FastaRecord)) (df : Dataset) (idc nc : String)
    (d s : Dataset) (h : join_fasta file df idc nc = (.ok d, s)) :
    s = d := by
  obtain ⟨_, _, _, _, _, _, _, hs⟩ := join_fasta_ok_inv h
  exact hs

/-- Witness for C7 at the worked example. -/
theorem join_fasta_returns_mutated_state_witness :
    (join_fasta (some exampleRecs) exampleDf "id" "seq").2 =
      [[("id", "A"), ("seq", "ACGT")], [("id", "B"), ("seq", "TTTT")],
       [("id", "A"), ("seq", "ACGT")]] :=
  join_fasta_returns_mutated_state (some exampleRecs) exampleDf "id" "seq"
    [[("id", "A"), ("seq", "ACGT")], [("id", "B"), ("seq", "TTTT")],
     [("id", "A"), ("seq", "ACGT")]]
    ((join_fasta (some exampleRecs) exampleDf "id" "seq").2) (by decide)

/-- C8 (frame): on a successful call, the row count is unchanged, rows stay
in order, and in every row each column other than `column_name` keeps
exactly its value. -/
theorem join_fasta_frame
    (file : Option (List FastaRecord)) (df : Dataset) (idc nc : String)
    (d s : Dataset) (h : join_fasta file df idc nc = (.ok d, s)) :
    d.length = df.length ∧
    List.Forall₂ (fun r r' => ∀ k, k ≠ nc → lookupStr k r' = lookupStr k r)
      df d := by
  obtain ⟨recs, ids, sc, hfile, hg, hb, hd, _⟩ := join_fasta_ok_inv h
  subst hd
  have hset := setColumn_forall₂
    (forall₂_exists_trans (getColumn_ok_forall₂ hg) (buildSeqCol_ok_forall₂ hb)) nc
  refine ⟨hset.length_eq.symm, List.Forall₂.imp ?_ hset⟩
  rintro r r' ⟨v, _, rfl⟩
  intro k hk
  exact setInRow_lookup_ne r hk v

/-- Witness for C8 at the worked example. -/
theorem join_fasta_frame_witness :
    ([[("id", "A"), ("seq", "ACGT")], [("id", "B"), ("seq", "TTTT")],
      [("id", "A"), ("seq", "ACGT")]] : Dataset).length = exampleDf.length ∧
    List.Forall₂ (fun r r' => ∀ k, k ≠ "seq" → lookupStr k r' = lookupStr k r)
      exampleDf
      [[("id", "A"), ("seq", "ACGT")], [("id", "B"), ("seq", "TTTT")],
       [("id", "A"), ("seq", "ACGT")]] :=
  join_fasta_frame (some exampleRecs) exampleDf "id" "seq"
    [[("id", "A"), ("seq", "ACGT")], [("id", "B"), ("seq", "TTTT")],
     [("id", "A"), ("seq", "ACGT")]]
    [[("id", "A"), ("seq", "ACGT")], [("id", "B"), ("seq", "TTTT")],
     [("id", "A"), ("seq", "ACGT")]] (by decide)

/-- C9: when some row's identifier is missing from the FASTA file, the
failed call leaves the caller's dataset completely unchanged — the whole
sequence column is computed into a temporary list before any assignment, so
the error is raised with the dataset still in its original state. -/
theorem join_fasta_error_atomic
    (recs : List FastaRecord) (df : Dataset) (idc nc : String)
    (hid : ∀ r ∈ df, (lookupStr idc r).isSome)
    (hmiss : ∃ r ∈ df, (lookupStr idc r).bind
      (fun v => lookupStr v (seqrecordsOf recs)) = none) :
    ∃ k, join_fasta (some recs) df idc nc = (.error (.keyError k), df) :=
  join_fasta_keyError_of_unmatched nc hid hmiss

/-- Witness for C9: the failing call on `[{id:A},{id:Z}]` returns the error
paired with the original dataset. -/
theorem join_fasta_error_atomic_witness :
    ∃ k, join_fasta (some [⟨"A", "ACGT"⟩, ⟨"B", "TTTT"⟩])
      [[("id", "B")], [("id", "Q")]] "id" "seq" =
      (.error (.keyError k), [[("id", "B")], [("id", "Q")]]) :=
  join_fasta_error_atomic [⟨"A", "ACGT"⟩, ⟨"B", "TTTT"⟩]
    [[("id", "B")], [("id", "Q")]] "id" "seq" (by decide) (by decide)

/-- C10: with `column_name = id_col` and every identifier matched, the call
still succeeds and replaces the identifier column itself: every lookup uses
the row's original identifier, and afterwards the row's `id_col` value is
the sequence mapped to that original identifier. -/
theorem join_fasta_self_column
    (recs : List FastaRecord) (df : Dataset) (idc : String)
    (hmatch : ∀ r ∈ df, ((lookupStr idc r).bind
      (fun v => lookupStr v (seqrecordsOf recs))).isSome) :
    ∃ df', join_fasta (some recs) df idc idc = (.ok df', df') ∧
      List.Forall₂ (fun r r' => ∃ v s, lookupStr idc r = some v ∧
        lookupStr v (seqrecordsOf recs) = some s ∧ lookupStr idc r' = some s)
        df df' := by
  have hid : ∀ r ∈ df, (lookupStr idc r).isSome := by
    intro r hr
    obtain ⟨s, hbind⟩ := Option.isSome_iff_exists.mp (hmatch r hr)
    obtain ⟨v, hv, _⟩ := Option.bind_eq_some.mp hbind
    simp [hv]
  obtain ⟨ids, hg, hfg⟩ := getColumn_of_forall hid
  have hids : ∀ i ∈ ids, (lookupStr i (seqrecordsOf recs)).isSome := by
    intro i hi
    obtain ⟨r, hr, hv⟩ := forall₂_mem_right hfg hi
    obtain ⟨s, hbind⟩ := Option.isSome_iff_exists.mp (hmatch r hr)
    obtain ⟨v, hv', hs⟩ := Option.bind_eq_some.mp hbind
    rw [hv] at hv'
    injection hv' with hv'
    rw [hv']
    simp [hs]
  obtain ⟨sc, hb, hfb⟩ := buildSeqCol_of_forall hids
  refine ⟨setColumn df idc sc, by simp [join_fasta, hg, hb], ?_⟩
  have hset := setColumn_forall₂ (forall₂_exists_trans hfg hfb) idc
  refine List.Forall₂.imp ?_ hset
  rintro r r' ⟨s, ⟨v, hv, hs⟩, rfl⟩
  exact ⟨v, s, hv, hs, setInRow_lookup_self r idc s⟩

/-- Witness for C10: joining on `id` into `id` itself replaces the
identifier with its sequence. -/
theorem join_fasta_self_column_witness :
    ∃ df', join_fasta (some [⟨"A", "ACGT"⟩]) [[("id", "A")]] "id" "id" =
      (.ok df', df') ∧
      List.Forall₂ (fun r r' => ∃ v s, lookupStr "id" r = some v ∧
        lookupStr v (seqrecordsOf [⟨"A", "ACGT"⟩]) = some s ∧
        lookupStr "id" r' = some s) [[("id", "A")]] df' :=
  join_fasta_self_column [⟨"A", "ACGT"⟩] [[("id", "A")]] "id" (by decide)
